/-
Verification of the account state layer of the parity repository
(src/ethcore/src/state/account.rs): a shallow embedding of the
`Account` record, its two-tier storage cache, its mutation operations
and its commit protocol, together with theorems settling the spec
claims about them.

Modelling conventions:
- 256-bit words (H256 / U256) are modelled as `Nat`; no claim under
  consideration depends on 256-bit wrap-around behaviour.
- `HashMap<H256, H256>` (the write overlay `storage_changes`) is
  modelled as an association list with first-match lookup; iteration
  order of the Rust `HashMap` is unspecified, so the model fixes the
  list order as the drain order.
- `LruCache<H256, H256>` (the bounded read cache `storage_cache`) is
  modelled as an association list in most-recently-inserted-first
  order; `insert` erases any existing entry for the key, prepends the
  new entry and evicts the last (least recent) entry when the length
  exceeds the capacity, matching the lru-cache crate.  The recency
  promotion that `get_mut` performs on a read is internal memoization
  with no externally observable effect (spec section 5) and is not
  modelled.
- The backing `HashDB` is modelled as an association list from hashes
  to byte strings; the content hash function (keccak in the external
  util crate, which is not part of the provided sources) is passed as
  an explicit parameter where an operation needs it.
- Rust `assert!` failures (invariant violations) are modelled by
  returning `none` from an `Option`-valued operation.
-/
import Mathlib

set_option maxHeartbeats 1000000
set_option maxRecDepth 40000

/-- Capacity of the bounded storage read cache (STORAGE_CACHE_ITEMS). -/
def STORAGE_CACHE_ITEMS : Nat := 4096

/-- The well-known hash of the empty byte string (SHA3_EMPTY in the util crate),
used to represent "account has no code". -/
def SHA3_EMPTY : Nat := 0xc5d2460186f7233c927e7db2dcc703c0e500b653ca82273b7bfad8045d85a470

/-- The hash of the RLP encoding of the empty byte string (SHA3_NULL_RLP),
the storage root of an empty storage trie. -/
def SHA3_NULL_RLP : Nat := 0x56e81f171bcc55a6ff8345e692c0f86e5b48e01b996cadc001622fb5e363b421

/-- Dirty/Clean flag of an account (the `Filth` enum). -/
inductive Filth where
  | Clean : Filth
  | Dirty : Filth
deriving DecidableEq

/-- First-match lookup of a key in an association list.  This is the
observable behaviour of both `HashMap::get` and the LRU cache lookup
used by `cached_storage_at` (the LRU recency promotion on a read is
internal memoization, see the header comment). -/
def lookupKey (l : List (Nat × Nat)) (k : Nat) : Option Nat :=
  (l.find? (fun p => p.1 == k)).map (fun p => p.2)

/-- Insert into the `HashMap` model: erase any existing entry for the key
and prepend the new entry (Rust `HashMap` iteration order is unspecified,
so any order-faithful representation is admissible). -/
def assocInsert (m : List (Nat × Nat)) (k v : Nat) : List (Nat × Nat) :=
  (k, v) :: m.filter (fun p => p.1 != k)

/-- Insert into the bounded LRU cache model: the new entry becomes most
recent (front), any previous entry for the same key is erased, and when
the length exceeds the capacity the least recent entry (the last) is
evicted, as `LruCache::insert` of the lru-cache crate does. -/
def lruInsert (c : List (Nat × Nat)) (k v : Nat) : List (Nat × Nat) :=
  let l := (k, v) :: c.filter (fun p => p.1 != k)
  if STORAGE_CACHE_ITEMS < l.length then l.dropLast else l

/-- Byte strings (Rust `Bytes`), one `Nat` per byte. -/
abbrev Bytes := List Nat

/-- The trie view used by `commit_storage`: a map from 256-bit keys to
encoded byte values, modelled as an association list. -/
abbrev Trie := List (Nat × Bytes)

/-- Remove a key from the trie view (`TrieMut::remove`). -/
def trieRemove (t : Trie) (k : Nat) : Trie :=
  t.filter (fun p => p.1 != k)

/-- Insert a key/value into the trie view (`TrieMut::insert`), replacing
any previous value for the key. -/
def trieInsert (t : Trie) (k : Nat) (v : Bytes) : Trie :=
  (k, v) :: trieRemove t k

/-- Modelled from the spec: the RLP byte layer lives in the external rlp
crate, which is not part of the provided sources.  The spec describes the
serialization as a canonical deterministic length-prefixed structured
byte sequence, so integers are encoded as their minimal big-endian byte
string here.  `natBE n` is the minimal big-endian byte representation of
`n` (empty for zero). -/
def natBE (n : Nat) : Bytes :=
  if h : n = 0 then []
  else natBE (n / 256) ++ [n % 256]
decreasing_by
  exact Nat.div_lt_self (Nat.pos_of_ne_zero h) (by norm_num)

/-- Big-endian byte string to natural number. -/
def bytesToNat (l : Bytes) : Nat :=
  l.foldl (fun acc b => acc * 256 + b) 0

/-- Modelled from the spec: one length-prefixed item of the canonical
encoding (the rlp crate's `append` of a single value, which is not under
the provided sources): the length of the minimal big-endian byte string
followed by its bytes. -/
def encodeItem (n : Nat) : Bytes :=
  (natBE n).length :: natBE n

/-- Modelled from the spec: read one length-prefixed item back
(the rlp crate's `val_at`), returning the decoded value and the
remaining bytes. -/
def parseItem (bs : Bytes) : Option (Nat × Bytes) :=
  match bs with
  | [] => none
  | len :: rest =>
      if len ≤ rest.length then some (bytesToNat (rest.take len), rest.drop len)
      else none

/-- The backing hash-addressed store (`HashDB`): an association list from
content hashes to byte strings. -/
abbrev HashStore := List (Nat × Bytes)

/-- Rust `HashDB::get`: look a byte string up by its hash. -/
def storeGet (db : HashStore) (h : Nat) : Option Bytes :=
  (db.find? (fun p => p.1 == h)).map (fun p => p.2)

/-- Rust `HashDB::insert`: store a byte string under its content hash and
return the hash.  The content hash function is a parameter (keccak in
the original, which lives in the external util crate). -/
def storeInsert (hash : Bytes → Nat) (db : HashStore) (b : Bytes) : Nat × HashStore :=
  (hash b, (hash b, b) :: db)

/-- Single account in the system (struct `Account`). -/
structure Account where
  balance : Nat
  nonce : Nat
  storage_root : Nat
  storage_cache : List (Nat × Nat)
  storage_changes : List (Nat × Nat)
  code_hash : Option Nat
  code_size : Option Nat
  code_cache : Bytes
  filth : Filth
  address_hash : Option Nat
deriving DecidableEq

namespace Account

/-- Rust `Account::new_basic`: fresh non-contract account with the given
balance and nonce; code fixed to empty. -/
def new_basic (balance nonce : Nat) : Account :=
  { balance := balance
    nonce := nonce
    storage_root := SHA3_NULL_RLP
    storage_cache := []
    storage_changes := []
    code_hash := some SHA3_EMPTY
    code_cache := []
    code_size := some 0
    filth := Filth.Dirty
    address_hash := none }

/-- Rust `Account::new_contract`: fresh contract placeholder; code identity
not yet assigned (`code_hash = None`). -/
def new_contract (balance nonce : Nat) : Account :=
  { balance := balance
    nonce := nonce
    storage_root := SHA3_NULL_RLP
    storage_cache := []
    storage_changes := []
    code_hash := none
    code_cache := []
    code_size := none
    filth := Filth.Dirty
    address_hash := none }

/-- Rust `Account::init_code`: attach code to a contract placeholder.  The
source asserts `code_hash.is_none()`; the assertion failure (invariant
violation) is modelled as `none`. -/
def init_code (a : Account) (code : Bytes) : Option Account :=
  if a.code_hash.isNone then
    some { a with code_cache := code, code_size := some code.length, filth := Filth.Dirty }
  else
    none

/-- Rust `Account::reset_code`: clear the code identity
(`code_hash := None`, `code_size := Some 0`) and then `init_code`. -/
def reset_code (a : Account) (code : Bytes) : Option Account :=
  init_code { a with code_hash := none, code_size := some 0 } code

/-- Rust `Account::set_storage`: write to the overlay and mark Dirty, unless
the overlay already holds exactly this value for the key (the
anti-redundant-write branch of the `Entry` match). -/
def set_storage (a : Account) (key value : Nat) : Account :=
  match lookupKey a.storage_changes key with
  | some w =>
      if w = value then a
      else { a with storage_changes := assocInsert a.storage_changes key value
                    filth := Filth.Dirty }
  | none =>
      { a with storage_changes := assocInsert a.storage_changes key value
               filth := Filth.Dirty }

/-- Rust `Account::cached_storage_at`: overlay first, then the bounded read
cache; never touches the trie (the signature takes no store). -/
def cached_storage_at (a : Account) (key : Nat) : Option Nat :=
  match lookupKey a.storage_changes key with
  | some value => some value
  | none => lookupKey a.storage_cache key

/-- Rust `Account::is_cached`: is the code loaded, such that `code` returns
a present value? -/
def is_cached (a : Account) : Bool :=
  !a.code_cache.isEmpty || (a.code_cache.isEmpty && a.code_hash == some SHA3_EMPTY)

/-- Rust `Account::code`: the account's code, when available. -/
def code (a : Account) : Option Bytes :=
  match a.code_hash with
  | some c =>
      if c == SHA3_EMPTY && a.code_cache.isEmpty then some a.code_cache
      else if !a.code_cache.isEmpty then some a.code_cache
      else none
  | none => some a.code_cache

/-- Rust `Account::storage_is_clean`: no un-committed storage writes. -/
def storage_is_clean (a : Account) : Bool :=
  a.storage_changes.isEmpty

/-- Rust `Account::is_dirty`: new or modified account. -/
def is_dirty (a : Account) : Bool :=
  (a.filth == Filth.Dirty) || !a.storage_is_clean

/-- Rust `Account::set_clean`: mark the account clean.  The source asserts
`storage_is_clean`; the assertion failure is modelled as `none`. -/
def set_clean (a : Account) : Option Account :=
  if a.storage_is_clean then some { a with filth := Filth.Clean } else none

/-- Rust `Account::inc_nonce`. -/
def inc_nonce (a : Account) : Account :=
  { a with nonce := a.nonce + 1, filth := Filth.Dirty }

/-- Rust `Account::add_balance`: no-op on a zero delta. -/
def add_balance (a : Account) (x : Nat) : Account :=
  if x = 0 then a
  else { a with balance := a.balance + x, filth := Filth.Dirty }

/-- Rust `Account::sub_balance`: no-op on a zero delta; asserts sufficient
funds (`balance >= x`), failure modelled as `none`. -/
def sub_balance (a : Account) (x : Nat) : Option Account :=
  if x = 0 then some a
  else if x ≤ a.balance then
    some { a with balance := a.balance - x, filth := Filth.Dirty }
  else none

/-- Rust `Account::cache_code`: load the code bytes from the store unless
already loaded; returns whether the code is now available. -/
def cache_code (a : Account) (db : HashStore) : Bool × Account :=
  if a.is_cached then (true, a)
  else
    match a.code_hash with
    | some h =>
        match storeGet db h with
        | some x => (true, { a with code_cache := x, code_size := some x.length })
        | none => (false, a)
    | none => (false, a)

/-- Rust `Account::cache_code_size`: load the code size from the store unless
already known; returns whether the size is now available.  The source
guard `Some(ref h) if h != &SHA3_EMPTY` sends the well-known empty-code
hash to the failing default arm. -/
def cache_code_size (a : Account) (db : HashStore) : Bool × Account :=
  if a.code_size.isSome then (true, a)
  else
    match a.code_hash with
    | some h =>
        if h == SHA3_EMPTY then (false, a)
        else
          match storeGet db h with
          | some x => (true, { a with code_size := some x.length })
          | none => (false, a)
    | none => (false, a)

/-- Rust `Account::commit_code`: case split on `(code_hash.is_none(),
code_cache.is_empty())`; a non-null code hash is left untouched. -/
def commit_code (hash : Bytes → Nat) (a : Account) (db : HashStore) : Account × HashStore :=
  if a.code_hash.isNone then
    if a.code_cache.isEmpty then
      ({ a with code_hash := some SHA3_EMPTY, code_size := some 0 }, db)
    else
      let r := storeInsert hash db a.code_cache
      ({ a with code_hash := some r.1, code_size := some a.code_cache.length }, r.2)
  else
    (a, db)

/-- One step of the `commit_storage` drain loop on the trie view: a zero
value removes the key, a non-zero value inserts its canonical encoded
form. -/
def commitStep (t : Trie) (kv : Nat × Nat) : Trie :=
  if kv.2 = 0 then trieRemove t kv.1 else trieInsert t kv.1 (encodeItem kv.2)

/-- Rust `Account::commit_storage`: drain the overlay entry by entry into the
trie view (zero removes, non-zero inserts the encoded value), writing
each drained entry into the bounded read cache, then update
`storage_root` from the trie (the root computation is the external trie
implementation's, passed as the `rootOf` parameter). -/
def commit_storage (a : Account) (rootOf : Trie → Nat)
    (t : Trie) : Account × Trie :=
  let res := a.storage_changes.foldl
    (fun (st : Trie × List (Nat × Nat)) kv =>
      (commitStep st.1 kv, lruInsert st.2 kv.1 kv.2))
    (t, a.storage_cache)
  ({ a with storage_changes := []
            storage_cache := res.2
            storage_root := rootOf res.1 },
   res.1)

/-- Rust `Account::merge_with`: asserts both overlays empty (failure modelled
as `none`); replaces the durable fields with the argument's and folds
the argument's read-cache entries into this account's read cache.  The
lru-cache iterator yields entries from least to most recently used,
which in the most-recent-first list model is the reversed list. -/
def merge_with (a other : Account) : Option Account :=
  if a.storage_is_clean && other.storage_is_clean then
    some { a with
      balance := other.balance
      nonce := other.nonce
      storage_root := other.storage_root
      code_hash := other.code_hash
      code_cache := other.code_cache
      code_size := other.code_size
      address_hash := other.address_hash
      storage_cache :=
        other.storage_cache.reverse.foldl
          (fun c p => lruInsert c p.1 p.2) a.storage_cache }
  else none

/-- Rust `Account::rlp`: the canonical encoding of exactly four fields in
fixed order - nonce, balance, storage_root, code_hash (substituting the
well-known empty-code hash when the code identity is still null) - as a
length-prefixed structured byte sequence (the byte layer is spec
modelled, see `encodeItem`). -/
def rlp (a : Account) : Bytes :=
  let payload :=
    encodeItem a.nonce ++ encodeItem a.balance ++ encodeItem a.storage_root ++
      encodeItem (a.code_hash.getD SHA3_EMPTY)
  payload.length :: payload

/-- Rust `Account::from_rlp`: decode the four fields in fixed order; the
result is Clean, with empty overlay and cache, no loaded code bytes and
unknown code size.  Malformed input (which makes the original panic) is
modelled as `none`. -/
def from_rlp (bs : Bytes) : Option Account :=
  match bs with
  | [] => none
  | plen :: payload =>
      if plen = payload.length then
        match parseItem payload with
        | some (n0, r1) =>
            match parseItem r1 with
            | some (n1, r2) =>
                match parseItem r2 with
                | some (n2, r3) =>
                    match parseItem r3 with
                    | some (n3, _) =>
                        some { nonce := n0
                               balance := n1
                               storage_root := n2
                               storage_cache := []
                               storage_changes := []
                               code_hash := some n3
                               code_size := none
                               code_cache := []
                               filth := Filth.Clean
                               address_hash := none }
                    | none => none
                | none => none
            | none => none
        | none => none
      else none

end Account

/-- The Clean/overlay invariant of the dirty lifecycle: a record whose
flag is Clean has an empty write overlay. -/
def cleanInvariant (a : Account) : Prop :=
  a.filth = Filth.Clean → a.storage_changes = []

instance (a : Account) : Decidable (cleanInvariant a) := by
  unfold cleanInvariant; infer_instance

/-- The read-cache component of the `commit_storage` drain loop (and of
the `merge_with` cache fold): fold the pairs into the LRU cache. -/
def cacheFold (c : List (Nat × Nat)) (ps : List (Nat × Nat)) : List (Nat × Nat) :=
  ps.foldl (fun acc kv => lruInsert acc kv.1 kv.2) c

/-- The trie component of the `commit_storage` drain loop: fold the
pairs into the trie view (zero removes, non-zero inserts encoded). -/
def trieFold (t : Trie) (ps : List (Nat × Nat)) : Trie :=
  ps.foldl Account.commitStep t

/-- Concrete account with one more uncommitted storage write than the
read cache capacity (4097 distinct keys, all mapped to the non-zero
value 1). -/
def bigOverlay : List (Nat × Nat) :=
  (List.range 4097).map (fun i => (i, 1))

/-- Account carrying `bigOverlay` as its uncommitted overlay. -/
def bigA : Account :=
  { Account.new_contract 0 0 with storage_changes := bigOverlay }

/-- Concrete merge argument: account whose read cache holds (5, 1). -/
def mergeSelfA : Account :=
  { Account.new_basic 0 0 with storage_cache := [(5, 1)] }

/-- Concrete merge argument: account whose read cache holds (5, 2) for
the same key 5. -/
def mergeOtherA : Account :=
  { Account.new_basic 0 0 with storage_cache := [(5, 2)] }

/-- Concrete merge argument for exercising merge: self, empty cache. -/
def mergeA7 : Account := Account.new_basic 1 2

/-- Concrete merge argument: other with cache entry (5, 9). -/
def mergeO7 : Account :=
  { Account.new_basic 3 4 with storage_cache := [(5, 9)] }

/-- Concrete account whose code hash is the well-known empty-code hash
while its code size is still unknown, as `from_rlp` produces for a
codeless account. -/
def codelessA : Account :=
  { Account.new_contract 1 2 with code_hash := some SHA3_EMPTY }

/-- A concrete valid encoding: payload of four length-prefixed
single-byte items 5, 6, 7, 8. -/
def sampleBytes : Bytes := [8, 1, 5, 1, 6, 1, 7, 1, 8]

/-- The account `sampleBytes` decodes to. -/
def sampleDecoded : Account :=
  { nonce := 5
    balance := 6
    storage_root := 7
    storage_cache := []
    storage_changes := []
    code_hash := some 8
    code_size := none
    code_cache := []
    filth := Filth.Clean
    address_hash := none }

theorem bytesToNat_append_single (l : Bytes) (b : Nat) :
    bytesToNat (l ++ [b]) = bytesToNat l * 256 + b := by
  simp [bytesToNat, List.foldl_append]

theorem bytesToNat_natBE (n : Nat) : bytesToNat (natBE n) = n := by
  induction n using Nat.strong_induction_on with
  | _ n ih =>
    by_cases h : n = 0
    · simp [natBE, h, bytesToNat]
    · rw [natBE]
      rw [dif_neg h]
      rw [bytesToNat_append_single]
      have hlt : n / 256 < n := Nat.div_lt_self (Nat.pos_of_ne_zero h) (by norm_num)
      rw [ih (n / 256) hlt]
      omega

theorem parseItem_encodeItem (n : Nat) (r : Bytes) :
    parseItem (encodeItem n ++ r) = some (n, r) := by
  simp only [encodeItem, List.cons_append, parseItem]
  rw [if_pos (by simp)]
  rw [List.take_left' rfl, List.drop_left' rfl, bytesToNat_natBE]

theorem parseItem_encodeItem_nil (n : Nat) :
    parseItem (encodeItem n) = some (n, []) := by
  have h := parseItem_encodeItem n []
  simpa using h

theorem lookupKey_cons (x : Nat × Nat) (rest : List (Nat × Nat)) (k : Nat) :
    lookupKey (x :: rest) k = if x.1 = k then some x.2 else lookupKey rest k := by
  by_cases h : x.1 = k <;> simp [lookupKey, List.find?_cons, h]

theorem lookupKey_filter_ne (l : List (Nat × Nat)) (k k' : Nat) (h : k' ≠ k) :
    lookupKey (l.filter (fun p => p.1 != k)) k' = lookupKey l k' := by
  induction l with
  | nil => rfl
  | cons x xs ih =>
    by_cases hx : x.1 = k
    · subst hx
      rw [List.filter_cons]
      rw [if_neg (by simp)]
      rw [ih, lookupKey_cons, if_neg (Ne.symm h)]
    · rw [List.filter_cons]
      have hb : (x.1 != k) = true := by simpa using hx
      rw [hb]
      simp only [if_pos]
      rw [lookupKey_cons, lookupKey_cons, ih]

theorem lookupKey_assocInsert_self (m : List (Nat × Nat)) (k v : Nat) :
    lookupKey (assocInsert m k v) k = some v := by
  rw [assocInsert, lookupKey_cons, if_pos rfl]

theorem lookupKey_assocInsert_ne (m : List (Nat × Nat)) (k v k' : Nat) (h : k' ≠ k) :
    lookupKey (assocInsert m k v) k' = lookupKey m k' := by
  rw [assocInsert, lookupKey_cons, if_neg (Ne.symm h), lookupKey_filter_ne m k k' h]

theorem lookupKey_append (A B : List (Nat × Nat)) (k : Nat) :
    lookupKey (A ++ B) k = (lookupKey A k).or (lookupKey B k) := by
  rw [lookupKey, List.find?_append]
  cases h : A.find? (fun p => p.1 == k) with
  | none => simp [lookupKey, Option.or, h]
  | some x => simp [lookupKey, Option.or, h]

/-- Claim C2: cached_storage_at returns the overlay entry when one
exists, otherwise the bounded read-cache entry when one exists,
otherwise none; after an uncommitted set_storage the overlay always
wins, regardless of any cache entry for the same key.  (The definition
of `cached_storage_at` takes no store or trie argument, matching the
source signature: the operation never consults the trie.) -/
theorem C2_cached_storage_at (a : Account) (k : Nat) :
    (∀ v, lookupKey a.storage_changes k = some v → a.cached_storage_at k = some v) ∧
    (lookupKey a.storage_changes k = none →
      a.cached_storage_at k = lookupKey a.storage_cache k) ∧
    (lookupKey a.storage_changes k = none → lookupKey a.storage_cache k = none →
      a.cached_storage_at k = none) ∧
    (∀ v, (a.set_storage k v).cached_storage_at k = some v) := by
  refine ⟨?_, ?_, ?_, ?_⟩
  · intro v h
    rw [Account.cached_storage_at, h]
  · intro h
    rw [Account.cached_storage_at, h]
  · intro h h2
    rw [Account.cached_storage_at, h, h2]
  · intro v
    cases h : lookupKey a.storage_changes k with
    | some w =>
        by_cases hw : w = v
        · subst hw
          simp only [Account.set_storage, h]
          rw [if_pos trivial]
          rw [Account.cached_storage_at, h]
        · simp only [Account.set_storage, h]
          rw [if_neg hw]
          simp [Account.cached_storage_at, lookupKey_assocInsert_self]
    | none =>
        simp only [Account.set_storage, h]
        simp [Account.cached_storage_at, lookupKey_assocInsert_self]

theorem C2_cached_storage_at_witness :
    lookupKey ((Account.new_basic 7 1).set_storage 3 5).storage_changes 3 = some 5 ∧
    ((Account.new_basic 7 1).set_storage 3 5).cached_storage_at 3 = some 5 ∧
    lookupKey (Account.new_basic 7 1).storage_changes 3 = none ∧
    lookupKey (Account.new_basic 7 1).storage_cache 3 = none ∧
    (Account.new_basic 7 1).cached_storage_at 3 = none :=
  ⟨by decide,
   (C2_cached_storage_at ((Account.new_basic 7 1).set_storage 3 5) 3).1 5 (by decide),
   by decide, by decide,
   (C2_cached_storage_at (Account.new_basic 7 1) 3).2.2.1 (by decide) (by decide)⟩

/-- Claim C5: writing a value the overlay already holds for the key is
a complete no-op (the whole record is unchanged); otherwise set_storage
writes the overlay entry and marks the account Dirty, leaving every
other field unchanged. -/
theorem C5_set_storage (a : Account) (k v : Nat) :
    (lookupKey a.storage_changes k = some v → a.set_storage k v = a) ∧
    (lookupKey a.storage_changes k ≠ some v →
      (a.set_storage k v).filth = Filth.Dirty ∧
      lookupKey (a.set_storage k v).storage_changes k = some v ∧
      (∀ k2, k2 ≠ k →
        lookupKey (a.set_storage k v).storage_changes k2 =
          lookupKey a.storage_changes k2) ∧
      (a.set_storage k v).balance = a.balance ∧
      (a.set_storage k v).nonce = a.nonce ∧
      (a.set_storage k v).storage_root = a.storage_root ∧
      (a.set_storage k v).storage_cache = a.storage_cache ∧
      (a.set_storage k v).code_hash = a.code_hash ∧
      (a.set_storage k v).code_size = a.code_size ∧
      (a.set_storage k v).code_cache = a.code_cache ∧
      (a.set_storage k v).address_hash = a.address_hash) := by
  constructor
  · intro h
    simp only [Account.set_storage, h]
    rw [if_pos trivial]
  · intro h
    have hsplit : a.set_storage k v =
        { a with storage_changes := assocInsert a.storage_changes k v
                 filth := Filth.Dirty } := by
      cases hc : lookupKey a.storage_changes k with
      | some w =>
          simp only [Account.set_storage, hc]
          rw [if_neg]
          intro hw
          exact h (hw ▸ hc)
      | none => simp only [Account.set_storage, hc]
    rw [hsplit]
    refine ⟨rfl, lookupKey_assocInsert_self _ _ _, ?_, rfl, rfl, rfl, rfl, rfl, rfl, rfl, rfl⟩
    intro k2 hk2
    exact lookupKey_assocInsert_ne _ _ _ _ hk2

theorem C5_set_storage_witness :
    ((Account.new_basic 0 0).set_storage 1 2).filth = Filth.Dirty ∧
    (((Account.new_basic 0 0).set_storage 1 2).set_storage 1 2 =
      (Account.new_basic 0 0).set_storage 1 2) :=
  ⟨((C5_set_storage (Account.new_basic 0 0) 1 2).2 (by decide)).1,
   (C5_set_storage ((Account.new_basic 0 0).set_storage 1 2) 1 2).1 (by decide)⟩

/-- Every successfully decoded account has an empty overlay and cache,
no loaded code bytes, unknown code size and a Clean flag. -/
theorem from_rlp_shape (bs : Bytes) (b : Account)
    (h : Account.from_rlp bs = some b) :
    b.storage_changes = [] ∧ b.code_size = none ∧ b.filth = Filth.Clean ∧
      b.storage_cache = [] ∧ b.code_cache = [] := by
  rcases bs with _ | ⟨plen, payload⟩
  · exact absurd h (by simp [Account.from_rlp])
  · simp only [Account.from_rlp] at h
    split at h
    · split at h
      · split at h
        · split at h
          · split at h
            · cases h
              exact ⟨rfl, rfl, rfl, rfl, rfl⟩
            · cases h
          · cases h
        · cases h
      · cases h
    · cases h

/-- Claim C1: decoding the encoding of any account yields an account
with identical balance, nonce and storage_root, whose code hash is the
original's effective code hash (the stored hash, or the well-known
empty-code hash when the code identity was still null); the encoding is
exactly the four fields nonce, balance, storage_root, code_hash in that
fixed order, length-prefixed. -/
theorem C1_rlp_roundtrip (a : Account) :
    a.rlp =
      (encodeItem a.nonce ++ encodeItem a.balance ++ encodeItem a.storage_root ++
        encodeItem (a.code_hash.getD SHA3_EMPTY)).length ::
      (encodeItem a.nonce ++ encodeItem a.balance ++ encodeItem a.storage_root ++
        encodeItem (a.code_hash.getD SHA3_EMPTY)) ∧
    Account.from_rlp a.rlp =
      some { nonce := a.nonce
             balance := a.balance
             storage_root := a.storage_root
             storage_cache := []
             storage_changes := []
             code_hash := some (a.code_hash.getD SHA3_EMPTY)
             code_size := none
             code_cache := []
             filth := Filth.Clean
             address_hash := none } := by
  refine ⟨rfl, ?_⟩
  simp only [Account.rlp, Account.from_rlp, List.append_assoc]
  rw [if_pos trivial]
  simp only [parseItem_encodeItem, parseItem_encodeItem_nil]

/-- Claim C10: an account whose code hash is the well-known empty-code
hash and whose code size is unknown (as `from_rlp` produces for a
codeless account) keeps `code_size = none` forever: `cache_code`
succeeds without touching the record at all, and `cache_code_size`
fails and also leaves the record unchanged, whatever the backing store
contains. -/
theorem C10_codeless_size :
    (∀ (a : Account) (db : HashStore), a.code_hash = some SHA3_EMPTY →
      a.cache_code db = (true, a)) ∧
    (∀ (a : Account) (db : HashStore), a.code_hash = some SHA3_EMPTY →
      a.code_size = none → a.cache_code_size db = (false, a)) ∧
    (∀ (bs : Bytes) (b : Account), Account.from_rlp bs = some b →
      b.code_size = none) := by
  refine ⟨?_, ?_, ?_⟩
  · intro a db h
    have hic : a.is_cached = true := by
      rw [Account.is_cached, h]
      cases hc : a.code_cache.isEmpty <;> simp [hc]
    rw [Account.cache_code, if_pos hic]
  · intro a db h hs
    rw [Account.cache_code_size]
    rw [if_neg (by simp [hs])]
    simp only [h]
    rw [if_pos (by simp)]
  · intro bs b h
    exact (from_rlp_shape bs b h).2.1

theorem C10_codeless_size_witness :
    codelessA.cache_code [(3, [1])] = (true, codelessA) ∧
    codelessA.cache_code_size [(3, [1])] = (false, codelessA) ∧
    sampleDecoded.code_size = none :=
  ⟨C10_codeless_size.1 codelessA [(3, [1])] (by decide),
   C10_codeless_size.2.1 codelessA [(3, [1])] (by decide) (by decide),
   C10_codeless_size.2.2 sampleBytes sampleDecoded (by decide)⟩

/-- Claim C4: commit_code leaves an account with a non-null code hash
completely alone (no store insert); with a null hash and empty code
cache it assigns the well-known empty-code hash and size 0; with a null
hash and non-empty cache it inserts the bytes into the store, adopts
the returned content hash and sets the size from the byte length; and
the operation is idempotent - the second of two consecutive calls
changes neither the account nor the store. -/
theorem C4_commit_code (hash : Bytes → Nat) (a : Account) (db : HashStore) :
    (a.code_hash ≠ none → Account.commit_code hash a db = (a, db)) ∧
    (a.code_hash = none → a.code_cache = [] →
      Account.commit_code hash a db =
        ({ a with code_hash := some SHA3_EMPTY, code_size := some 0 }, db)) ∧
    (a.code_hash = none → a.code_cache ≠ [] →
      Account.commit_code hash a db =
        ({ a with code_hash := some (hash a.code_cache)
                  code_size := some a.code_cache.length },
         (hash a.code_cache, a.code_cache) :: db)) ∧
    Account.commit_code hash (Account.commit_code hash a db).1
        (Account.commit_code hash a db).2 =
      Account.commit_code hash a db := by
  refine ⟨?_, ?_, ?_, ?_⟩
  · intro h
    rw [Account.commit_code, if_neg (by simp [Option.isNone_iff_eq_none, h])]
  · intro h hc
    rw [Account.commit_code, if_pos (by simp [h]), if_pos (by simp [hc])]
  · intro h hc
    rw [Account.commit_code, if_pos (by simp [h]), if_neg (by simp [hc])]
    rfl
  · rcases h : a.code_hash with _ | ch
    · by_cases hc : a.code_cache.isEmpty = true
      · have h1 : Account.commit_code hash a db =
            ({ a with code_hash := some SHA3_EMPTY, code_size := some 0 }, db) := by
          rw [Account.commit_code, if_pos (by simp [h]), if_pos hc]
        rw [h1, Account.commit_code, if_neg (by simp)]
      · have h1 : Account.commit_code hash a db =
            ({ a with code_hash := some (hash a.code_cache)
                      code_size := some a.code_cache.length },
             (hash a.code_cache, a.code_cache) :: db) := by
          rw [Account.commit_code, if_pos (by simp [h]), if_neg hc]
          rfl
        rw [h1, Account.commit_code, if_neg (by simp)]
    · have h1 : Account.commit_code hash a db = (a, db) := by
        rw [Account.commit_code, if_neg (by simp [h])]
      rw [h1, Account.commit_code, if_neg (by simp [h])]

theorem C4_commit_code_witness :
    Account.commit_code (fun _ => 42) (Account.new_basic 1 1) [] =
      (Account.new_basic 1 1, []) ∧
    Account.commit_code (fun _ => 42) (Account.new_contract 1 1) [] =
      ({ Account.new_contract 1 1 with
           code_hash := some SHA3_EMPTY, code_size := some 0 }, []) ∧
    Account.commit_code (fun _ => 42)
        { Account.new_contract 1 1 with code_cache := [7] } [] =
      ({ Account.new_contract 1 1 with
           code_cache := [7], code_hash := some 42, code_size := some 1 },
       [(42, [7])]) :=
  ⟨(C4_commit_code (fun _ => 42) (Account.new_basic 1 1) []).1 (by decide),
   (C4_commit_code (fun _ => 42) (Account.new_contract 1 1) []).2.1
     (by decide) (by decide),
   (C4_commit_code (fun _ => 42)
     { Account.new_contract 1 1 with code_cache := [7] } []).2.2.1
     (by decide) (by decide)⟩

theorem cleanInvariant_of_dirty (b : Account) (h : b.filth = Filth.Dirty) :
    cleanInvariant b := by
  intro hc
  rw [h] at hc
  cases hc

theorem cleanInvariant_of_empty (b : Account) (h : b.storage_changes = []) :
    cleanInvariant b :=
  fun _ => h

theorem set_storage_code_hash (a : Account) (k v : Nat) :
    (a.set_storage k v).code_hash = a.code_hash := by
  cases hc : lookupKey a.storage_changes k with
  | some w =>
      by_cases hw : w = v
      · simp only [Account.set_storage, hc]
        rw [if_pos hw]
      · simp only [Account.set_storage, hc]
        rw [if_neg hw]
  | none => simp only [Account.set_storage, hc]

/-- Claim C8: is_dirty holds exactly when the filth flag is Dirty or the
overlay is non-empty; set_clean fails (invariant violation) exactly when
the overlay is non-empty; and the invariant "a Clean-flagged account has
an empty overlay" is established by every constructor and preserved by
every operation of the record. -/
theorem C8_dirty_lifecycle (a other : Account) (k v x : Nat) (c : Bytes)
    (hash : Bytes → Nat) (db : HashStore) (rootOf : Trie → Nat) (t : Trie) :
    (a.is_dirty = true ↔ (a.filth = Filth.Dirty ∨ a.storage_changes ≠ [])) ∧
    (a.set_clean = none ↔ a.storage_changes ≠ []) ∧
    (∀ b, a.set_clean = some b →
      b.storage_changes = a.storage_changes ∧ b.filth = Filth.Clean) ∧
    (cleanInvariant a → cleanInvariant (a.set_storage k v)) ∧
    (cleanInvariant a → cleanInvariant a.inc_nonce) ∧
    (cleanInvariant a → cleanInvariant (a.add_balance x)) ∧
    (cleanInvariant a → ∀ b, a.sub_balance x = some b → cleanInvariant b) ∧
    (∀ b, a.init_code c = some b → cleanInvariant b) ∧
    (∀ b, a.reset_code c = some b → cleanInvariant b) ∧
    cleanInvariant (a.commit_storage rootOf t).1 ∧
    (cleanInvariant a → cleanInvariant (Account.commit_code hash a db).1) ∧
    (cleanInvariant a → cleanInvariant (a.cache_code db).2) ∧
    (cleanInvariant a → cleanInvariant (a.cache_code_size db).2) ∧
    (∀ b, a.set_clean = some b → cleanInvariant b) ∧
    (∀ b, a.merge_with other = some b → cleanInvariant b) ∧
    cleanInvariant (Account.new_basic x k) ∧
    cleanInvariant (Account.new_contract x k) ∧
    (∀ bs b, Account.from_rlp bs = some b → cleanInvariant b) := by
  refine ⟨?_, ?_, ?_, ?_, ?_, ?_, ?_, ?_, ?_, ?_, ?_, ?_, ?_, ?_, ?_, ?_, ?_, ?_⟩
  · rw [Account.is_dirty, Account.storage_is_clean]
    cases hc : a.storage_changes <;> cases hf : a.filth <;> simp [hf]
  · cases hc : a.storage_changes with
    | nil => simp [Account.set_clean, Account.storage_is_clean, hc]
    | cons y ys => simp [Account.set_clean, Account.storage_is_clean, hc]
  · intro b hb
    cases hc : a.storage_changes with
    | nil =>
        rw [Account.set_clean,
          if_pos (by simp [Account.storage_is_clean, hc])] at hb
        cases hb
        exact ⟨hc, rfl⟩
    | cons y ys =>
        rw [Account.set_clean,
          if_neg (by simp [Account.storage_is_clean, hc])] at hb
        cases hb
  · intro hinv
    cases hc : lookupKey a.storage_changes k with
    | some w =>
        by_cases hw : w = v
        · have he : a.set_storage k v = a := by
            simp only [Account.set_storage, hc]
            rw [if_pos hw]
          rw [he]
          exact hinv
        · have he : a.set_storage k v =
              { a with storage_changes := assocInsert a.storage_changes k v
                       filth := Filth.Dirty } := by
            simp only [Account.set_storage, hc]
            rw [if_neg hw]
          rw [he]
          exact cleanInvariant_of_dirty _ rfl
    | none =>
        have he : a.set_storage k v =
            { a with storage_changes := assocInsert a.storage_changes k v
                     filth := Filth.Dirty } := by
          simp only [Account.set_storage, hc]
        rw [he]
        exact cleanInvariant_of_dirty _ rfl
  · intro _
    exact cleanInvariant_of_dirty _ rfl
  · intro hinv
    by_cases hx : x = 0
    · rw [Account.add_balance, if_pos hx]
      exact hinv
    · rw [Account.add_balance, if_neg hx]
      exact cleanInvariant_of_dirty _ rfl
  · intro hinv b hb
    rw [Account.sub_balance] at hb
    by_cases hx : x = 0
    · rw [if_pos hx] at hb
      cases hb
      exact hinv
    · rw [if_neg hx] at hb
      by_cases hle : x ≤ a.balance
      · rw [if_pos hle] at hb
        cases hb
        exact cleanInvariant_of_dirty _ rfl
      · rw [if_neg hle] at hb
        cases hb
  · intro b hb
    rw [Account.init_code] at hb
    by_cases hn : a.code_hash.isNone = true
    · rw [if_pos hn] at hb
      cases hb
      exact cleanInvariant_of_dirty _ rfl
    · rw [if_neg hn] at hb
      cases hb
  · intro b hb
    rw [Account.reset_code, Account.init_code, if_pos (by simp)] at hb
    cases hb
    exact cleanInvariant_of_dirty _ rfl
  · exact cleanInvariant_of_empty _ rfl
  · intro hinv
    rcases h : a.code_hash with _ | ch
    · by_cases hc : a.code_cache.isEmpty = true
      · have h1 : (Account.commit_code hash a db).1 =
            { a with code_hash := some SHA3_EMPTY, code_size := some 0 } := by
          rw [Account.commit_code, if_pos (by simp [h]), if_pos hc]
        rw [h1]
        exact hinv
      · have h1 : (Account.commit_code hash a db).1 =
            { a with code_hash := some (hash a.code_cache)
                     code_size := some a.code_cache.length } := by
          rw [Account.commit_code, if_pos (by simp [h]), if_neg hc]
          rfl
        rw [h1]
        exact hinv
    · have h1 : (Account.commit_code hash a db).1 = a := by
        rw [Account.commit_code, if_neg (by simp [h])]
      rw [h1]
      exact hinv
  · intro hinv
    rw [Account.cache_code]
    by_cases hic : a.is_cached = true
    · rw [if_pos hic]
      exact hinv
    · rw [if_neg hic]
      rcases h : a.code_hash with _ | ch
      · exact hinv
      · rcases hg : storeGet db ch with _ | xbytes
        · simp only [hg]
          exact hinv
        · simp only [hg]
          exact hinv
  · intro hinv
    rw [Account.cache_code_size]
    by_cases hs : a.code_size.isSome = true
    · rw [if_pos hs]
      exact hinv
    · rw [if_neg hs]
      rcases h : a.code_hash with _ | ch
      · exact hinv
      · by_cases he : (ch == SHA3_EMPTY) = true
        · simp only [if_pos he]
          exact hinv
        · simp only [if_neg he]
          rcases hg : storeGet db ch with _ | xbytes
          · simp only [hg]
            exact hinv
          · simp only [hg]
            exact hinv
  · intro b hb
    cases hc : a.storage_changes with
    | nil =>
        rw [Account.set_clean,
          if_pos (by simp [Account.storage_is_clean, hc])] at hb
        cases hb
        exact cleanInvariant_of_empty _ hc
    | cons y ys =>
        rw [Account.set_clean,
          if_neg (by simp [Account.storage_is_clean, hc])] at hb
        cases hb
  · intro b hb
    rw [Account.merge_with] at hb
    by_cases hg : (a.storage_is_clean && other.storage_is_clean) = true
    · rw [if_pos hg] at hb
      cases hb
      have ha : a.storage_changes = [] := by
        have h1 := (Bool.and_eq_true _ _).mp hg
        rw [Account.storage_is_clean] at h1
        exact List.isEmpty_iff.mp h1.1
      exact cleanInvariant_of_empty _ ha
    · rw [if_neg hg] at hb
      cases hb
  · exact cleanInvariant_of_dirty _ rfl
  · exact cleanInvariant_of_dirty _ rfl
  · intro bs b hb
    exact cleanInvariant_of_empty _ (from_rlp_shape bs b hb).1

theorem C8_dirty_lifecycle_witness :
    ((Account.new_basic 2 3).set_storage 1 2).is_dirty = true ∧
    ((Account.new_basic 2 3).set_storage 1 2).set_clean = none ∧
    cleanInvariant ((Account.new_basic 2 3).set_storage 1 2) := by
  have H := C8_dirty_lifecycle (Account.new_basic 2 3) (Account.new_basic 0 0)
    1 2 5 [1] (fun _ => 0) [] (fun _ => 0) []
  have H2 := C8_dirty_lifecycle ((Account.new_basic 2 3).set_storage 1 2)
    (Account.new_basic 0 0) 1 2 5 [1] (fun _ => 0) [] (fun _ => 0) []
  exact ⟨H2.1.mpr (Or.inr (by decide)), H2.2.1.mpr (by decide),
    H.2.2.2.1 (by decide)⟩

/-- Claim C6 (amended): attaching code via init_code to an account whose
code_hash is already non-null is rejected as an invariant violation, and
no operation of the record other than reset_code (which deliberately
clears the code identity before re-initialising it) and merge_with
(which wholesale adopts the other record's identity) changes a non-null
code_hash: set_storage, inc_nonce, add_balance, sub_balance,
commit_storage, commit_code, cache_code, cache_code_size and set_clean
all preserve it, and commit_code additionally performs no store
insert. -/
theorem C6_code_identity (a : Account) (hsh : Nat) (c : Bytes) (k v x : Nat)
    (hash : Bytes → Nat) (db : HashStore) (rootOf : Trie → Nat) (t : Trie)
    (h : a.code_hash = some hsh) :
    a.init_code c = none ∧
    (a.set_storage k v).code_hash = some hsh ∧
    a.inc_nonce.code_hash = some hsh ∧
    (a.add_balance x).code_hash = some hsh ∧
    (∀ b, a.sub_balance x = some b → b.code_hash = some hsh) ∧
    (a.commit_storage rootOf t).1.code_hash = some hsh ∧
    Account.commit_code hash a db = (a, db) ∧
    (a.cache_code db).2.code_hash = some hsh ∧
    (a.cache_code_size db).2.code_hash = some hsh ∧
    (∀ b, a.set_clean = some b → b.code_hash = some hsh) := by
  refine ⟨?_, ?_, ?_, ?_, ?_, ?_, ?_, ?_, ?_, ?_⟩
  · rw [Account.init_code, if_neg (by simp [h])]
  · rw [set_storage_code_hash]
    exact h
  · exact h
  · by_cases hx : x = 0
    · rw [Account.add_balance, if_pos hx]
      exact h
    · rw [Account.add_balance, if_neg hx]
      exact h
  · intro b hb
    rw [Account.sub_balance] at hb
    by_cases hx : x = 0
    · rw [if_pos hx] at hb
      cases hb
      exact h
    · rw [if_neg hx] at hb
      by_cases hle : x ≤ a.balance
      · rw [if_pos hle] at hb
        cases hb
        exact h
      · rw [if_neg hle] at hb
        cases hb
  · exact h
  · rw [Account.commit_code, if_neg (by simp [h])]
  · rw [Account.cache_code]
    by_cases hic : a.is_cached = true
    · rw [if_pos hic]
      exact h
    · rw [if_neg hic]
      simp only [h]
      rcases hg : storeGet db hsh with _ | xbytes
      · simp only [hg]
        exact h
      · simp only [hg]
  · rw [Account.cache_code_size]
    by_cases hs : a.code_size.isSome = true
    · rw [if_pos hs]
      exact h
    · rw [if_neg hs]
      simp only [h]
      by_cases he : (hsh == SHA3_EMPTY) = true
      · simp only [if_pos he]
        exact h
      · simp only [if_neg he]
        rcases hg : storeGet db hsh with _ | xbytes
        · simp only [hg]
          exact h
        · simp only [hg]
  · intro b hb
    rw [Account.set_clean] at hb
    by_cases hcl : a.storage_is_clean = true
    · rw [if_pos hcl] at hb
      cases hb
      exact h
    · rw [if_neg hcl] at hb
      cases hb

/-- Claim C6 counterexample: reset_code changes an already-assigned
non-null code hash.  A fresh basic account has the well-known empty-code
hash as its (non-null) code_hash; reset_code succeeds on it and leaves
code_hash null, so not every operation of the record preserves a
non-null code_hash. -/
theorem C6_code_identity_counterexample :
    (Account.new_basic 1 1).code_hash = some SHA3_EMPTY ∧
    (Account.reset_code (Account.new_basic 1 1) [1]).map Account.code_hash =
      some none :=
  ⟨rfl, rfl⟩

theorem C6_code_identity_witness :
    Account.init_code (Account.new_basic 5 6) [9] = none ∧
    ((Account.new_basic 5 6).set_storage 1 2).code_hash = some SHA3_EMPTY := by
  have H := C6_code_identity (Account.new_basic 5 6) SHA3_EMPTY [9] 1 2 3
    (fun _ => 0) [] (fun _ => 0) [] (by decide)
  exact ⟨H.1, H.2.1⟩

/-- Claim C9: at the failing input - a fresh contract placeholder,
whose code_hash is still null and whose code cache is empty - `code`
returns a present (Some) value while the dedicated "code loaded"
predicate `is_cached` returns false, so `code` is not Some exactly when
`is_cached` is true. -/
theorem C9_code_isCached_mismatch :
    (Account.new_contract 69 0).code = some [] ∧
    (Account.new_contract 69 0).is_cached = false := by
  constructor
  · rfl
  · rfl

theorem lookupKey_nil (k : Nat) : lookupKey [] k = none := rfl

theorem foldl_pair_split (ps : List (Nat × Nat)) (t : Trie)
    (c : List (Nat × Nat)) :
    ps.foldl (fun (st : Trie × List (Nat × Nat)) kv =>
      (Account.commitStep st.1 kv, lruInsert st.2 kv.1 kv.2)) (t, c) =
    (trieFold t ps, cacheFold c ps) := by
  induction ps generalizing t c with
  | nil => rfl
  | cons p ps ih =>
      simp only [trieFold, cacheFold, List.foldl_cons] at ih ⊢
      exact ih _ _

theorem commit_storage_eq (a : Account) (rootOf : Trie → Nat) (t : Trie) :
    a.commit_storage rootOf t =
      ({ a with storage_changes := []
                storage_cache := cacheFold a.storage_cache a.storage_changes
                storage_root := rootOf (trieFold t a.storage_changes) },
       trieFold t a.storage_changes) := by
  simp only [Account.commit_storage, foldl_pair_split]

theorem lruInsert_no_evict (c : List (Nat × Nat)) (k v : Nat)
    (h : c.length < STORAGE_CACHE_ITEMS) :
    lruInsert c k v = (k, v) :: c.filter (fun p => p.1 != k) := by
  simp only [lruInsert]
  rw [if_neg]
  intro hlt
  have hf := List.length_filter_le (fun p => p.1 != k) c
  simp only [List.length_cons] at hlt
  omega

theorem lruInsert_length_cap (c : List (Nat × Nat)) (k v : Nat)
    (h : c.length ≤ STORAGE_CACHE_ITEMS) :
    (lruInsert c k v).length ≤ STORAGE_CACHE_ITEMS := by
  have hf := List.length_filter_le (fun p => p.1 != k) c
  simp only [lruInsert]
  split
  · rename_i hcond
    simp only [List.length_dropLast, List.length_cons]
    omega
  · rename_i hcond
    simp only [List.length_cons]
    simp only [List.length_cons, not_lt] at hcond
    omega

theorem lruInsert_length_le (c : List (Nat × Nat)) (k v : Nat) :
    (lruInsert c k v).length ≤ c.length + 1 := by
  have hf := List.length_filter_le (fun p => p.1 != k) c
  simp only [lruInsert]
  split
  · simp only [List.length_dropLast, List.length_cons]
    omega
  · simp only [List.length_cons]
    omega

theorem cacheFold_length (ps c : List (Nat × Nat))
    (hc : c.length ≤ STORAGE_CACHE_ITEMS) :
    (cacheFold c ps).length ≤ STORAGE_CACHE_ITEMS := by
  induction ps generalizing c with
  | nil => exact hc
  | cons p ps ih => exact ih _ (lruInsert_length_cap c p.1 p.2 hc)

theorem lookupKey_lruInsert_no_evict (c : List (Nat × Nat)) (k v k' : Nat)
    (h : c.length < STORAGE_CACHE_ITEMS) :
    lookupKey (lruInsert c k v) k' =
      if k' = k then some v else lookupKey c k' := by
  rw [lruInsert_no_evict c k v h, lookupKey_cons]
  by_cases hk : k' = k
  · rw [if_pos hk.symm, if_pos hk]
  · rw [if_neg (Ne.symm hk), if_neg hk, lookupKey_filter_ne c k k' hk]

theorem cacheFold_lookup (ps c : List (Nat × Nat)) (k : Nat)
    (h : c.length + ps.length ≤ STORAGE_CACHE_ITEMS) :
    lookupKey (cacheFold c ps) k =
      (lookupKey ps.reverse k).or (lookupKey c k) := by
  induction ps generalizing c with
  | nil => simp [cacheFold, lookupKey_nil, Option.or]
  | cons p ps ih =>
      have hc : c.length < STORAGE_CACHE_ITEMS := by
        simp only [List.length_cons] at h
        omega
      have hlen : (lruInsert c p.1 p.2).length + ps.length ≤
          STORAGE_CACHE_ITEMS := by
        have h2 := lruInsert_length_le c p.1 p.2
        simp only [List.length_cons] at h
        omega
      have h1 : cacheFold c (p :: ps) = cacheFold (lruInsert c p.1 p.2) ps := rfl
      rw [h1, ih _ hlen, lookupKey_lruInsert_no_evict c p.1 p.2 k hc]
      rw [List.reverse_cons, lookupKey_append, lookupKey_cons]
      cases hr : lookupKey ps.reverse k with
      | some w => simp [Option.or]
      | none =>
          by_cases hk : k = p.1
          · simp [Option.or, hk, lookupKey_nil]
          · simp [Option.or, hk, Ne.symm hk, lookupKey_nil]

theorem dropLast_append_left {α : Type} (A B : List α) (hB : B ≠ []) :
    (A ++ B).dropLast = A ++ B.dropLast := by
  have hBlen : 1 ≤ B.length := List.length_pos.mpr hB
  rw [List.dropLast_eq_take, List.dropLast_eq_take, List.length_append,
    List.take_append_eq_append_take]
  rw [List.take_of_length_le (by omega)]
  congr 2
  omega

theorem cacheFold_front_seg (ps c : List (Nat × Nat))
    (hnd : (ps.map Prod.fst).Nodup)
    (hlen : ps.length ≤ STORAGE_CACHE_ITEMS) :
    ∃ r, cacheFold c ps = ps.reverse ++ r := by
  induction ps using List.reverseRecOn with
  | nil => exact ⟨c, rfl⟩
  | append_singleton ps p ih =>
      rw [List.map_append] at hnd
      have hsp := List.nodup_append.mp hnd
      have hnd1 : (ps.map Prod.fst).Nodup := hsp.1
      have hp : p.1 ∉ ps.map Prod.fst := by
        intro hmem
        exact hsp.2.2 hmem (by simp)
      have hlen1 : ps.length ≤ STORAGE_CACHE_ITEMS := by
        rw [List.length_append] at hlen
        omega
      obtain ⟨r, hr⟩ := ih hnd1 hlen1
      have hfold : cacheFold c (ps ++ [p]) =
          lruInsert (cacheFold c ps) p.1 p.2 := by
        simp only [cacheFold, List.foldl_append, List.foldl_cons, List.foldl_nil]
      rw [hfold, hr]
      have hfil : (ps.reverse ++ r).filter (fun q => q.1 != p.1) =
          ps.reverse ++ r.filter (fun q => q.1 != p.1) := by
        rw [List.filter_append]
        congr 1
        rw [List.filter_eq_self]
        intro q hq
        simp only [bne_iff_ne, ne_eq]
        intro hqp
        apply hp
        rw [← hqp]
        exact List.mem_map_of_mem Prod.fst (List.mem_reverse.mp hq)
      have hshape : ((p.1, p.2) : Nat × Nat) ::
          (ps.reverse ++ r.filter (fun q => q.1 != p.1)) =
          (ps ++ [p]).reverse ++ r.filter (fun q => q.1 != p.1) := by
        simp [List.reverse_append]
      simp only [lruInsert, hfil, hshape]
      split
      · rename_i hcond
        have hA : ((ps ++ [p]).reverse).length = ps.length + 1 := by
          simp
        have hBne : r.filter (fun q => q.1 != p.1) ≠ [] := by
          intro hBe
          rw [hBe, List.append_nil, hA] at hcond
          rw [List.length_append] at hlen
          simp at hlen
          omega
        exact ⟨(r.filter (fun q => q.1 != p.1)).dropLast,
          dropLast_append_left _ _ hBne⟩
      · exact ⟨r.filter (fun q => q.1 != p.1), rfl⟩

theorem lookup_of_mem_nodup (l : List (Nat × Nat)) (k v : Nat)
    (hnd : (l.map Prod.fst).Nodup) (hm : (k, v) ∈ l) :
    lookupKey l k = some v := by
  induction l with
  | nil => cases hm
  | cons x xs ih =>
      rw [lookupKey_cons]
      rcases List.mem_cons.mp hm with h1 | h1
      · rw [← h1]
        simp
      · by_cases hx : x.1 = k
        · exfalso
          rw [List.map_cons] at hnd
          have hxk : k ∈ xs.map Prod.fst :=
            List.mem_map_of_mem Prod.fst h1
        
          rw [hx] at hnd
          exact (List.nodup_cons.mp hnd).1 hxk
        · rw [if_neg hx]
          exact ih (by rw [List.map_cons] at hnd; exact (List.nodup_cons.mp hnd).2) h1

theorem cacheFold_mem_lookup (ps c : List (Nat × Nat))
    (hnd : (ps.map Prod.fst).Nodup)
    (hlen : ps.length ≤ STORAGE_CACHE_ITEMS)
    (k v : Nat) (hm : (k, v) ∈ ps) :
    lookupKey (cacheFold c ps) k = some v := by
  obtain ⟨r, hr⟩ := cacheFold_front_seg ps c hnd hlen
  rw [hr, lookupKey_append]
  have hrev : lookupKey ps.reverse k = some v := by
    apply lookup_of_mem_nodup
    · rw [List.map_reverse]
      exact List.nodup_reverse.mpr hnd
    · exact List.mem_reverse.mpr hm
  rw [hrev]
  rfl

/-- Claim C3 (amended): commit_storage drains the overlay completely
(the overlay is empty afterwards), the resulting trie is the fold of the
per-entry step (a zero value removes the key, a non-zero value inserts
its canonical encoded form), each drained entry is inserted into the
bounded read cache, and the new storage_root is the root of the updated
trie; provided the overlay holds at most 4096 entries (the cache
capacity), cached_storage_at returns the committed value for every
drained key immediately after the commit. -/
theorem C3_commit_storage (a : Account) (rootOf : Trie → Nat) (t : Trie) :
    (a.commit_storage rootOf t).1.storage_changes = [] ∧
    (a.commit_storage rootOf t).2 = trieFold t a.storage_changes ∧
    (a.commit_storage rootOf t).1.storage_cache =
      cacheFold a.storage_cache a.storage_changes ∧
    (a.commit_storage rootOf t).1.storage_root =
      rootOf (trieFold t a.storage_changes) ∧
    ((a.storage_changes.map Prod.fst).Nodup →
      a.storage_changes.length ≤ STORAGE_CACHE_ITEMS →
      ∀ k v, (k, v) ∈ a.storage_changes →
        (a.commit_storage rootOf t).1.cached_storage_at k = some v) := by
  refine ⟨?_, ?_, ?_, ?_, ?_⟩
  · rw [commit_storage_eq]
  · rw [commit_storage_eq]
  · rw [commit_storage_eq]
  · rw [commit_storage_eq]
  · intro hnd hlen k v hm
    rw [commit_storage_eq]
    simp only [Account.cached_storage_at, lookupKey_nil]
    exact cacheFold_mem_lookup a.storage_changes a.storage_cache hnd hlen k v hm

/-- Claim C3 counterexample: with 4097 = capacity + 1 drained entries,
the first drained key is evicted from the bounded read cache by the
4096 later insertions, so cached_storage_at does not return the
committed value for it immediately after the commit (it returns none),
refuting the unconditional claim. -/
theorem C3_commit_storage_counterexample :
    (0, 1) ∈ bigA.storage_changes ∧
    (bigA.commit_storage (fun _ => 0) []).1.cached_storage_at 0 = none := by
  constructor
  · show (0, 1) ∈ bigOverlay
    rw [bigOverlay]
    exact List.mem_map_of_mem _ (List.mem_range.mpr (by norm_num))
  · rw [commit_storage_eq]
    simp only [Account.cached_storage_at, lookupKey_nil]
    show lookupKey (cacheFold [] bigOverlay) 0 = none
    have hsplit : bigOverlay = (0, 1) :: (List.range 4096).map (fun i => (i + 1, 1)) := by
      rw [bigOverlay, List.range_succ_eq_map, List.map_cons, List.map_map]
      rfl
    rw [hsplit]
    have hstep : cacheFold [] ((0, 1) :: (List.range 4096).map (fun i => (i + 1, 1))) =
        cacheFold (lruInsert [] 0 1) ((List.range 4096).map (fun i => (i + 1, 1))) := by
      simp only [cacheFold, List.foldl_cons]
    have hins : lruInsert [] 0 1 = [(0, 1)] := by decide
    rw [hstep, hins]
    have hnd : (((List.range 4096).map (fun i => (i + 1, 1))).map Prod.fst).Nodup := by
      rw [List.map_map]
      have he : (Prod.fst ∘ fun i : Nat => ((i + 1 : Nat), (1 : Nat))) =
          (fun i : Nat => i + 1) := rfl
      rw [he]
      exact (List.nodup_range 4096).map (fun a b hab => by omega)
    have hlen : ((List.range 4096).map (fun i => ((i + 1 : Nat), (1 : Nat)))).length ≤
        STORAGE_CACHE_ITEMS := by
      simp [STORAGE_CACHE_ITEMS]
    obtain ⟨r, hr⟩ := cacheFold_front_seg _ [(0, 1)] hnd hlen
    have hcap := cacheFold_length ((List.range 4096).map (fun i => ((i + 1 : Nat), (1 : Nat))))
      [(0, 1)] (by simp [STORAGE_CACHE_ITEMS])
    rw [hr] at hcap
    rw [List.length_append, List.length_reverse, List.length_map,
      List.length_range] at hcap
    have hrnil : r = [] := by
      simp only [STORAGE_CACHE_ITEMS] at hcap
      exact List.length_eq_zero.mp (by omega)
    rw [hr, hrnil, List.append_nil]
    rw [lookupKey]
    have hnone : (((List.range 4096).map (fun i => ((i + 1 : Nat), (1 : Nat)))).reverse).find?
        (fun p => p.1 == 0) = none := by
      rw [List.find?_eq_none]
      intro x hx
      rw [List.mem_reverse] at hx
      obtain ⟨i, hi, rfl⟩ := List.mem_map.mp hx
      simp
    rw [hnone]
    rfl

theorem C3_commit_storage_witness :
    (({ Account.new_contract 0 0 with storage_changes := [(1, 2)] } : Account).commit_storage
        (fun _ => 0) []).1.cached_storage_at 1 = some 2 :=
  (C3_commit_storage { Account.new_contract 0 0 with storage_changes := [(1, 2)] }
    (fun _ => 0) []).2.2.2.2 (by decide) (by decide) 1 2 (by decide)

/-- Claim C7 (amended): merge_with fails (invariant violation) exactly
when either side's overlay is non-empty; on success the durable fields
(balance, nonce, storage_root, code hash, code size, code bytes,
address hash) equal the argument's prior values, and - whenever the two
read caches together fit within the 4096-entry capacity - every key of
the merged read cache resolves to the argument's prior entry when the
argument cached it, and to self's prior entry otherwise (the argument's
entries take precedence over self's for a shared key; self's entry for
such a key is replaced, not kept alongside). -/
theorem C7_merge_with (a other : Account) :
    (a.merge_with other = none ↔
      ¬(a.storage_changes = [] ∧ other.storage_changes = [])) ∧
    (∀ m, a.merge_with other = some m →
      m.balance = other.balance ∧ m.nonce = other.nonce ∧
      m.storage_root = other.storage_root ∧ m.code_hash = other.code_hash ∧
      m.code_size = other.code_size ∧ m.code_cache = other.code_cache ∧
      m.address_hash = other.address_hash ∧
      (a.storage_cache.length + other.storage_cache.length ≤
          STORAGE_CACHE_ITEMS →
        ∀ k, lookupKey m.storage_cache k =
          (lookupKey other.storage_cache k).or
            (lookupKey a.storage_cache k))) := by
  constructor
  · rw [Account.merge_with]
    by_cases hg : (a.storage_is_clean && other.storage_is_clean) = true
    · rw [if_pos hg]
      simp only [Account.storage_is_clean, Bool.and_eq_true,
        List.isEmpty_iff] at hg
      simp [hg]
    · rw [if_neg hg]
      simp only [Account.storage_is_clean, Bool.and_eq_true,
        List.isEmpty_iff] at hg
      simp [hg]
  · intro m hm
    rw [Account.merge_with] at hm
    by_cases hg : (a.storage_is_clean && other.storage_is_clean) = true
    · rw [if_pos hg] at hm
      cases hm
      refine ⟨rfl, rfl, rfl, rfl, rfl, rfl, rfl, ?_⟩
      intro hcap k
      show lookupKey (cacheFold a.storage_cache other.storage_cache.reverse) k = _
      rw [cacheFold_lookup other.storage_cache.reverse a.storage_cache k
        (by rw [List.length_reverse]; omega)]
      rw [List.reverse_reverse]
    · rw [if_neg hg] at hm
      cases hm

/-- Claim C7 counterexample: when both sides cache the same key with
different values, the argument's entry replaces self's, so the merged
cache does not contain the union of both sides' prior entries: self's
prior entry (5, 1) is gone and only the argument's (5, 2) remains. -/
theorem C7_merge_with_counterexample :
    (5, 1) ∈ mergeSelfA.storage_cache ∧
    (mergeSelfA.merge_with mergeOtherA).map Account.storage_cache =
      some [(5, 2)] := by
  constructor
  · decide
  · decide

theorem C7_merge_with_witness :
    lookupKey ({ Account.new_basic 3 4 with
        storage_cache := [(5, 9)] } : Account).storage_cache 5 =
      (lookupKey mergeO7.storage_cache 5).or (lookupKey mergeA7.storage_cache 5) :=
  ((C7_merge_with mergeA7 mergeO7).2
    { Account.new_basic 3 4 with storage_cache := [(5, 9)] }
    (by decide)).2.2.2.2.2.2.2 (by decide) 5
